import Mathlib

/-!
Shallow embedding of the `optitrack_motive` calibration tooling.

Sources embedded here:
  * `src/optitrack_motive/calib/__init__.py` — timestamp codec, snapshot store
    (`_parse_calib_timestamp`, `list_calibs`, `latest_json_path`,
    `find_calib_at_or_before`), mirrored by
    `src/optitrack_python/calib/__init__.py` (`list_snapshots`,
    `latest_json_path`).
  * `src/optitrack_python/motive_stream.py` — description fetch client
    (`fetch_camera_descriptions`, `_parse_camera_descriptions`).
  * `src/optitrack_python/presets.py` — room preset loading (`load_room`).
  * `src/scripts/update_calib.py` — snapshot writer (`_timestamp_utc`,
    `_hash_payload`, dedup logic in `main`).

Strings are modelled as `List Char` where character-level work is needed
(Python string operations act on code points, as `List Char` does), and as
`String` elsewhere.  Wall-clock times and float vector components are
modelled as `ℚ`; no floating-point rounding is relevant to any property
proved here.  `datetime.strptime` is modelled at the fidelity of the CPython
`_strptime` regexes: each numeric directive is an ordered list of
alternatives (two-digit alternatives before one-digit ones, exactly as in
`TimeRE`), the overall match is the first one in backtracking order, and
`strptime` fails if that first match leaves unconverted characters.
-/

namespace OptiCalib

/- ## Generic string helpers (Python `startswith` / `endswith` / `in` / `strip`) -/

/-- Python `l.startswith(px)` on code-point lists. -/
def listStartsWith : List Char → List Char → Bool
  | _, [] => true
  | [], _ :: _ => false
  | c :: l, p :: ps => c == p && listStartsWith l ps

/-- Python `l.endswith(suf)` on code-point lists. -/
def listEndsWith (l suf : List Char) : Bool :=
  l.drop (l.length - suf.length) == suf

/-- Python `needle in l` substring containment. -/
def hasSubL (needle : List Char) : List Char → Bool
  | [] => listStartsWith [] needle
  | c :: tl => listStartsWith (c :: tl) needle || hasSubL needle tl

/-- Python whitespace: the characters for which `str.isspace()` holds, used
both by `str.strip()` and by the regex class backslash-s on str patterns
(U+0009 to U+000D, U+001C to U+001F, space, U+0085, U+00A0, U+1680,
U+2000 to U+200A, U+2028, U+2029, U+202F, U+205F, U+3000). -/
def isPySpace (c : Char) : Bool :=
  (decide (9 ≤ c.toNat) && decide (c.toNat ≤ 13)) ||
    (decide (28 ≤ c.toNat) && decide (c.toNat ≤ 32)) ||
    c.toNat == 0x85 || c.toNat == 0xa0 || c.toNat == 0x1680 ||
    (decide (0x2000 ≤ c.toNat) && decide (c.toNat ≤ 0x200a)) ||
    c.toNat == 0x2028 || c.toNat == 0x2029 || c.toNat == 0x202f ||
    c.toNat == 0x205f || c.toNat == 0x3000

/-- Python `str.strip()`: drop whitespace from both ends. -/
def pstrip (l : List Char) : List Char :=
  ((l.dropWhile isPySpace).reverse.dropWhile isPySpace).reverse

/-- Lexicographic code-point comparison on code-point lists: the order
Python uses to compare strings (and hence to sort filenames and JSON keys).
`strLeData x y` decides `x ≤ y`. -/
def strLeData : List Char → List Char → Bool
  | [], _ => true
  | _ :: _, [] => false
  | a :: as, b :: bs =>
    if a.toNat < b.toNat then true
    else if b.toNat < a.toNat then false
    else strLeData as bs

/-- Comparison `a ≤ b` on strings, by code points, as Python compares them. -/
def strLe (a b : String) : Bool := strLeData a.data b.data

/- ## Digits -/

/-- The ASCII digit character for `n` (meaningful for `n ≤ 9`). -/
def dChar (n : Nat) : Char := Char.ofNat (48 + n)

/-- ASCII digit test (regex `\d` over the ASCII inputs in scope). -/
def isDigit (c : Char) : Bool := decide (48 ≤ c.toNat) && decide (c.toNat ≤ 57)

/-- Numeric value of an ASCII digit character. -/
def digitVal (c : Char) : Nat := c.toNat - 48

/-- The `strftime` zero-padded two-digit field for `n ≤ 99`. -/
def pad2 (n : Nat) : List Char := [dChar (n / 10), dChar (n % 10)]

/- ## Instants (model of `datetime.datetime` at minute resolution) -/

/-- A wall-clock instant at minute resolution.  `time.strftime("%y%m%d_%H%M")`
truncates seconds, and every value this system stores or compares is at
minute resolution, so seconds are not modelled. -/
structure Instant where
  year : Nat
  month : Nat
  day : Nat
  hour : Nat
  minute : Nat
  deriving DecidableEq, Repr

/-- Gregorian leap-year rule used by `datetime`. -/
def isLeap (y : Nat) : Bool := y % 4 == 0 && (y % 100 != 0 || y % 400 == 0)

/-- Days in a month, as validated by the `datetime` constructor. -/
def daysInMonth (y m : Nat) : Nat :=
  if m = 2 then (if isLeap y then 29 else 28)
  else if m = 4 ∨ m = 6 ∨ m = 9 ∨ m = 11 then 30
  else 31

/-- Validity of an instant: exactly the field ranges the `datetime`
constructor enforces (hour/minute ranges are also guaranteed by the
directive regexes). -/
def Instant.valid (t : Instant) : Prop :=
  1 ≤ t.year ∧ t.year ≤ 9999 ∧ 1 ≤ t.month ∧ t.month ≤ 12 ∧
    1 ≤ t.day ∧ t.day ≤ daysInMonth t.year t.month ∧ t.hour ≤ 23 ∧ t.minute ≤ 59

instance (t : Instant) : Decidable t.valid := by
  unfold Instant.valid; infer_instance

/-- The `datetime` comparison: lexicographic on the fields. -/
def Instant.lexLe (a b : Instant) : Prop :=
  a.year < b.year ∨ (a.year = b.year ∧
    (a.month < b.month ∨ (a.month = b.month ∧
      (a.day < b.day ∨ (a.day = b.day ∧
        (a.hour < b.hour ∨ (a.hour = b.hour ∧ a.minute ≤ b.minute)))))))

instance : DecidableRel Instant.lexLe := fun a b => by
  unfold Instant.lexLe; infer_instance

/-- CPython `%y` two-digit-year mapping: 0–68 → 2000s, 69–99 → 1900s. -/
def mapY (y2 : Nat) : Nat := if y2 ≤ 68 then 2000 + y2 else 1900 + y2

/- ## strptime model

CPython `_strptime.TimeRE` patterns for the directives used by this code:
  `%Y` = `\d\d\d\d`, `%y` = `\d\d`, `%m` = `1[0-2]|0[1-9]|[1-9]`,
  `%d` = `3[01]|[12]\d|0[1-9]|[1-9]| [1-9]` (the last alternative is a
  space followed by a digit), `%H` = `2[0-3]|[0-1]\d|\d`,
  `%M` = `[0-5]\d|\d`.
Each directive is modelled as the ordered list of its alternatives; a full
format match is the first element, in backtracking order, of the list of all
ways to match the concatenated directives.  `strptime` then demands that
this first match consume the whole input, and that the resulting fields form
a valid date. -/

/-- One two-digit alternative of a directive: both characters are digits and
the pair satisfies the character-class constraint `ok`. -/
def digOpts2 (ok : Nat → Nat → Bool) : List Char → List (Nat × List Char)
  | c1 :: c2 :: rest =>
    if isDigit c1 && isDigit c2 && ok (digitVal c1) (digitVal c2) then
      [(10 * digitVal c1 + digitVal c2, rest)]
    else []
  | _ => []

/-- One one-digit alternative of a directive. -/
def digOpts1 (ok : Nat → Bool) : List Char → List (Nat × List Char)
  | c :: rest => if isDigit c && ok (digitVal c) then [(digitVal c, rest)] else []
  | [] => []

/-- One alternative of the form space-then-digit: the final ` [1-9]`
alternative of the `%d` directive. -/
def spaceDigOpts (ok : Nat → Bool) : List Char → List (Nat × List Char)
  | c0 :: c :: rest =>
    if c0 == ' ' && isDigit c && ok (digitVal c) then [(digitVal c, rest)] else []
  | _ => []

/-- Directive `%Y`: exactly four digits. -/
def digOpts4 : List Char → List (Nat × List Char)
  | c1 :: c2 :: c3 :: c4 :: rest =>
    if isDigit c1 && isDigit c2 && isDigit c3 && isDigit c4 then
      [(1000 * digitVal c1 + 100 * digitVal c2 + 10 * digitVal c3 + digitVal c4, rest)]
    else []
  | _ => []

/-- A literal character in the format string. -/
def litC (c : Char) : List Char → List (List Char)
  | x :: rest => if x == c then [rest] else []
  | [] => []

/-- Sequencing of alternative lists in backtracking order (the list bind,
written out so its equations are directly available to proofs). -/
def nbind {α β : Type} : List α → (α → List β) → List β
  | [], _ => []
  | a :: tl, k => k a ++ nbind tl k

/-- Directive `%y`: exactly two digits. -/
def parseY2 (s : List Char) : List (Nat × List Char) :=
  digOpts2 (fun _ _ => true) s

/-- Directive `%m`. -/
def parseMon (s : List Char) : List (Nat × List Char) :=
  digOpts2 (fun a b => a == 1 && decide (b ≤ 2)) s ++
    digOpts2 (fun a b => a == 0 && decide (1 ≤ b)) s ++
    digOpts1 (fun a => decide (1 ≤ a)) s

/-- Directive `%d`. -/
def parseDay (s : List Char) : List (Nat × List Char) :=
  digOpts2 (fun a b => a == 3 && decide (b ≤ 1)) s ++
    digOpts2 (fun a _ => a == 1 || a == 2) s ++
    digOpts2 (fun a b => a == 0 && decide (1 ≤ b)) s ++
    digOpts1 (fun a => decide (1 ≤ a)) s ++
    spaceDigOpts (fun a => decide (1 ≤ a)) s

/-- Directive `%H`. -/
def parseHour (s : List Char) : List (Nat × List Char) :=
  digOpts2 (fun a b => a == 2 && decide (b ≤ 3)) s ++
    digOpts2 (fun a _ => decide (a ≤ 1)) s ++
    digOpts1 (fun _ => true) s

/-- Directive `%M`. -/
def parseMin (s : List Char) : List (Nat × List Char) :=
  digOpts2 (fun a _ => decide (a ≤ 5)) s ++ digOpts1 (fun _ => true) s

/-- All matches of the format `%y%m%d_%H%M`, in backtracking order. -/
def tokenMatches (s : List Char) : List (Nat × Nat × Nat × Nat × Nat × List Char) :=
  nbind (parseY2 s) fun ys =>
  nbind (parseMon ys.2) fun ms =>
  nbind (parseDay ms.2) fun ds =>
  nbind (litC '_' ds.2) fun s4 =>
  nbind (parseHour s4) fun hs =>
  nbind (parseMin hs.2) fun mis =>
  [(ys.1, ms.1, ds.1, hs.1, mis.1, mis.2)]

/-- Model of `datetime.strptime(s, "%y%m%d_%H%M")`, returning `none` where Python
raises `ValueError` (no match, unconverted trailing data, or an invalid
calendar date). -/
def strptimeToken (s : List Char) : Option Instant :=
  match tokenMatches s with
  | [] => none
  | (y, mo, d, h, mi, rest) :: _ =>
    if rest = [] then
      if Instant.valid ⟨mapY y, mo, d, h, mi⟩ then some ⟨mapY y, mo, d, h, mi⟩ else none
    else none

/-- All matches of the format `%Y-%m-%d`, in backtracking order. -/
def dateMatches (s : List Char) : List (Nat × Nat × Nat × List Char) :=
  nbind (digOpts4 s) fun ys =>
  nbind (litC '-' ys.2) fun s1 =>
  nbind (parseMon s1) fun ms =>
  nbind (litC '-' ms.2) fun s2 =>
  nbind (parseDay s2) fun ds =>
  [(ys.1, ms.1, ds.1, ds.2)]

/-- Model of `datetime.strptime(s, "%Y-%m-%d")` (hour and minute default to 0). -/
def strptimeDate (s : List Char) : Option Instant :=
  match dateMatches s with
  | [] => none
  | (y, mo, d, rest) :: _ =>
    if rest = [] then
      if Instant.valid ⟨y, mo, d, 0, 0⟩ then some ⟨y, mo, d, 0, 0⟩ else none
    else none

/-- All matches of the format `%Y-%m-%dT%H:%M`, in backtracking order. -/
def dateTimeMatches (s : List Char) : List (Nat × Nat × Nat × Nat × Nat × List Char) :=
  nbind (digOpts4 s) fun ys =>
  nbind (litC '-' ys.2) fun s1 =>
  nbind (parseMon s1) fun ms =>
  nbind (litC '-' ms.2) fun s2 =>
  nbind (parseDay s2) fun ds =>
  nbind (litC 'T' ds.2) fun s3 =>
  nbind (parseHour s3) fun hs =>
  nbind (litC ':' hs.2) fun s4 =>
  nbind (parseMin s4) fun mis =>
  [(ys.1, ms.1, ds.1, hs.1, mis.1, mis.2)]

/-- Model of `datetime.strptime(s, "%Y-%m-%dT%H:%M")`. -/
def strptimeDateTime (s : List Char) : Option Instant :=
  match dateTimeMatches s with
  | [] => none
  | (y, mo, d, h, mi, rest) :: _ =>
    if rest = [] then
      if Instant.valid ⟨y, mo, d, h, mi⟩ then some ⟨y, mo, d, h, mi⟩ else none
    else none

/- ## Timestamp codec
(`_timestamp_utc` in `src/scripts/update_calib.py`,
`_parse_calib_timestamp` in `src/optitrack_motive/calib/__init__.py`) -/

/-- Model of `time.strftime("%y%m%d_%H%M", ...)` applied to an instant. -/
def encodeToken (t : Instant) : List Char :=
  pad2 (t.year % 100) ++ pad2 t.month ++ pad2 t.day ++ '_' :: (pad2 t.hour ++ pad2 t.minute)

/-- Filename prefix for a room: `f"{room}_" if room else "calib_"` (Python
truthiness: `None` and `""` both yield the default prefix). -/
def roomPx : Option String → String
  | some r => if r = "" then "calib_" else r ++ "_"
  | none => "calib_"

/-- Model of `_parse_calib_timestamp(name, room)`: strip the room prefix and the
`.json` suffix, then `strptime` the remainder as `%y%m%d_%H%M`; `none`
(never an error) on any mismatch. -/
def parseCalibTimestamp (name : String) (room : Option String) : Option Instant :=
  if listStartsWith name.data (roomPx room).data && listEndsWith name.data ".json".data then
    strptimeToken ((name.data.drop (roomPx room).length).take
      (name.length - (roomPx room).length - 5))
  else none

/- ## Snapshot store
(`list_calibs`, `latest_json_path`, `load_latest`, `find_calib_at_or_before`
in `src/optitrack_motive/calib/__init__.py`; `list_snapshots` and
`latest_json_path` in `src/optitrack_python/calib/__init__.py` have the
identical listing/fallback logic) -/

/-- An immediate child of the calibration root directory. -/
structure Dirent where
  name : String
  isFile : Bool
  deriving DecidableEq, Repr

/-- The filesystem state a store call observes: the immediate children of
the root directory (`none` when the root does not exist), and the children of
the legacy `<root>/latest/` directory. -/
structure CalibFS where
  rootEntries : Option (List Dirent)
  latestChildren : List String

/-- Children of the root, empty when the root is missing. -/
def CalibFS.children (fs : CalibFS) : List Dirent := fs.rootEntries.getD []

/-- Test `(root / "latest" / name).exists()`: requires the root to exist. -/
def CalibFS.existsInLatestDir (fs : CalibFS) (name : String) : Bool :=
  fs.rootEntries.isSome && fs.latestChildren.contains name

/-- Test `(root / name).exists()` for an immediate child of the root. -/
def CalibFS.existsInRoot (fs : CalibFS) (name : String) : Bool :=
  match fs.rootEntries with
  | none => false
  | some es => es.any fun e => e.name == name

/-- The filter of `list_calibs`: regular file, name starts with the room
prefix, ends with `.json`, and does not contain `"latest"`. -/
def calibEntryOk (room : Option String) (e : Dirent) : Bool :=
  e.isFile && listStartsWith e.name.data (roomPx room).data &&
    listEndsWith e.name.data ".json".data && !(hasSubL "latest".data e.name.data)

/-- Model of `list_calibs(room)` / `list_snapshots(room)`: `[]` when the root does not
exist, else the filtered child names sorted ascending (the stable Python
sort with `key=lambda p: p.name`, modelled by stable insertion sort over the
lexicographic string order). -/
def list_calibs (fs : CalibFS) (room : Option String) : List String :=
  match fs.rootEntries with
  | none => []
  | some es =>
    List.insertionSort (fun a b => strLe a b = true)
      ((es.filter (calibEntryOk room)).map (·.name))

/-- Model of `_latest_filename(room)`. -/
def latestFilename (room : Option String) : String :=
  match room with
  | some r => if r = "" then "calib_latest.json" else r ++ "_latest.json"
  | none => "calib_latest.json"

/-- The filename checked under `<root>/latest/`:
`f"{room}_calib.json" if room else "calib.json"`. -/
def legacyPointerName (room : Option String) : String :=
  match room with
  | some r => if r = "" then "calib.json" else r ++ "_calib.json"
  | none => "calib.json"

/-- Where `latest_json_path` found its answer (the three locations are
distinct paths on disk: `<root>/<name>` for snapshots and the legacy root
pointer, `<root>/latest/<name>` for the legacy directory pointer). -/
inductive LatestLoc where
  | entry (name : String)
  | legacyLatestDir (name : String)
  | legacyRoot (name : String)
  deriving DecidableEq, Repr

/-- Model of `latest_json_path(room)`: last listing element when the listing is
non-empty, else the first existing legacy location, else `none`. -/
def latestJsonPath (fs : CalibFS) (room : Option String) : Option LatestLoc :=
  match (list_calibs fs room).getLast? with
  | some p => some (.entry p)
  | none =>
    let legacyName := legacyPointerName room
    if fs.existsInLatestDir legacyName then some (.legacyLatestDir legacyName)
    else
      let ll := latestFilename room
      if fs.existsInRoot ll then some (.legacyRoot ll) else none

/-- The target argument of `find_calib_at_or_before`: a `datetime` or a
string. -/
inductive FindTarget where
  | dt (t : Instant)
  | str (s : String)

/-- The one eager validation error of the store (`ValueError` raised for an
unparseable date string). -/
inductive FindError where
  | invalidFormat
  deriving DecidableEq, Repr

/-- The string branch of `find_calib_at_or_before`: strip the input, then
try `%Y-%m-%d`, `%Y-%m-%dT%H:%M`, `%y%m%d_%H%M` in order. -/
def parseTargetText (s : String) : Option Instant :=
  let text := pstrip s.data
  match strptimeDate text with
  | some t => some t
  | none =>
    match strptimeDateTime text with
    | some t => some t
    | none => strptimeToken text

/-- The qualifying `(timestamp, path)` candidates of
`find_calib_at_or_before`, in listing order. -/
def atOrBeforeCands (fs : CalibFS) (room : Option String) (tdt : Instant) :
    List (Instant × String) :=
  (list_calibs fs room).filterMap fun name =>
    match parseCalibTimestamp name room with
    | none => none
    | some ts => if Instant.lexLe ts tdt then some (ts, name) else none

/-- Model of `find_calib_at_or_before(target, room)`. -/
def findCalibAtOrBefore (fs : CalibFS) (room : Option String) (target : FindTarget) :
    Except FindError (Option String) :=
  match (match target with | .dt t => some t | .str s => parseTargetText s) with
  | none => .error .invalidFormat
  | some tdt =>
    .ok (((List.insertionSort (fun a b => Instant.lexLe a.1 b.1)
      (atOrBeforeCands fs room tdt)).getLast?).map (·.2))

/- ## JSON values and Python dict operations -/

/-- JSON-representable values (numbers restricted to integers: every number
any proof here touches is integral, and no property depends on float
rendering). -/
inductive JVal where
  | jnull
  | jbool (b : Bool)
  | jnum (n : Int)
  | jstr (s : String)
  | jarr (elems : List JVal)
  | jobj (fields : List (String × JVal))

/-- Insertion-ordered Python dict, keys unique in well-formed values. -/
abbrev DStr := List (String × JVal)

/-- Assignment `d[k] = v`: replace in place when the key is present, else append. -/
def dSet (d : DStr) (k : String) (v : JVal) : DStr :=
  if (d.lookup k).isSome then d.map (fun kv => if kv.1 = k then (k, v) else kv)
  else d ++ [(k, v)]

/-- Python `d.update(src)`. -/
def dUpdate (d src : DStr) : DStr := src.foldl (fun acc kv => dSet acc kv.1 kv.2) d

/-- Python `d.setdefault(k, v)`. -/
def dSetDefault (d : DStr) (k : String) (v : JVal) : DStr :=
  if (d.lookup k).isSome then d else d ++ [(k, v)]

/- ## Room presets (`load_room` in `src/optitrack_python/presets.py`) -/

/-- The `CONNECTION_FIELDS` set. -/
def CONNECTION_FIELDS : List String := ["server_ip", "client_ip", "use_multicast"]

/-- The connection-merging fragment of `load_room`: filter the `default`
and `connection` mappings of the preset to `CONNECTION_FIELDS`, merge them
in that order, apply the `connection_overrides` of the caller unfiltered (skipped
when falsy, i.e. `None` or empty), then fill missing keys with the
fallback defaults. -/
def mergeConnection (defaults conn overrides : DStr) : DStr :=
  let m1 := defaults.filter fun kv => decide (kv.1 ∈ CONNECTION_FIELDS)
  let m2 := dUpdate m1 (conn.filter fun kv => decide (kv.1 ∈ CONNECTION_FIELDS))
  let m3 := if overrides.isEmpty then m2 else dUpdate m2 overrides
  let m4 := dSetDefault m3 "server_ip" (.jstr "localhost")
  let m5 := dSetDefault m4 "client_ip" (.jstr "auto")
  dSetDefault m5 "use_multicast" (.jbool true)

/- ## Description fetch client
(`fetch_camera_descriptions`, `_parse_camera_descriptions` in
`src/optitrack_python/motive_stream.py`) -/

/-- The value stored under one key of a parsed camera record. -/
inductive CamVal where
  | vstr (s : String)
  | vserial (n : Option Nat)
  | vvec (v : List ℚ)
  deriving DecidableEq

/-- A camera entry of the raw NatNet model definition.  `position` and
`orientation` are `none` when the attribute is absent (`getattr` default);
`extras` are whatever further attributes the raw record carries. -/
structure RawCamera where
  name : String
  position : Option (List ℚ)
  orientation : Option (List ℚ)
  extras : List (String × JVal)

/-- Greedy `\d+` after greedy `\s*`, for the serial regex. -/
def digitsValue (s : List Char) : Option Nat :=
  let s1 := s.dropWhile isPySpace
  let ds := s1.takeWhile isDigit
  if ds = [] then none else some (ds.foldl (fun acc c => 10 * acc + digitVal c) 0)

/-- Model of `re.search` with pattern hash, optional whitespace, digits: leftmost `#` followed by optional
whitespace and at least one digit; scanning continues past a `#` whose
continuation does not match. -/
def serialScan : List Char → Option Nat
  | [] => none
  | c :: rest =>
    if c == '#' then
      match digitsValue rest with
      | some n => some n
      | none => serialScan rest
    else serialScan rest

/-- Position normalization in `_parse_camera_descriptions`: pad with
`[0.0, 0.0, 0.0]` when shorter than 3, then truncate to the first 3. -/
def normPos (src : List ℚ) : List ℚ :=
  let raw := if src.length < 3 then (src ++ [0, 0, 0]).take 3 else src
  raw.take 3

/-- Orientation normalization: pad with `[0.0, 0.0, 0.0, 1.0]` when shorter
than 4, then truncate to the first 4. -/
def normOrient (src : List ℚ) : List ℚ :=
  let raw := if src.length < 4 then (src ++ [0, 0, 0, 1]).take 4 else src
  raw.take 4

/-- Model of `getattr(camera_desc, "position", [0.0, 0.0, 0.0])`. -/
def RawCamera.srcPos (c : RawCamera) : List ℚ := c.position.getD [0, 0, 0]

/-- Model of `getattr(camera_desc, "orientation", [0.0, 0.0, 0.0, 1.0])`. -/
def RawCamera.srcOrient (c : RawCamera) : List ℚ := c.orientation.getD [0, 0, 0, 1]

/-- The dict literal appended per camera by `_parse_camera_descriptions`:
exactly the keys `name`, `serial`, `position`, `orientation`. -/
def parseCamera (c : RawCamera) : List (String × CamVal) :=
  [("name", .vstr c.name),
   ("serial", .vserial (serialScan c.name.data)),
   ("position", .vvec (normPos c.srcPos)),
   ("orientation", .vvec (normOrient c.srcOrient))]

/-- Model of `_parse_camera_descriptions` over the whole camera list. -/
def parseCameraDescriptions (cams : List RawCamera) : List (List (String × CamVal)) :=
  cams.map parseCamera

/-- Observable actions of `fetch_camera_descriptions` on the NatNet client. -/
inductive FEvent where
  | register
  | sendRequest
  | unregister
  | shutdown
  deriving DecidableEq, Repr

/-- How one call of `fetch_camera_descriptions` ends. -/
inductive FOutcome where
  | startFailure
  | timeout
  | success (cams : List (List (String × CamVal)))
  deriving DecidableEq

/-- The environment of one fetch: whether `client.run` succeeds, the
wall-clock reading of each successive `time.time()` call (`clock 0` is the
reading used to compute the deadline), whether the data-description event is
already signalled when the `event.wait(0.1)` of poll `i` completes, and the raw
payload the callback captured. -/
structure FetchWorld where
  runSucceeds : Bool
  clock : Nat → ℚ
  ev : Nat → Bool
  rawCams : List RawCamera

/-- Result of a fetch: the outcome together with the ordered trace of
client-visible actions. -/
structure FetchResult where
  outcome : FOutcome
  trace : List FEvent
  deriving DecidableEq

/-- The polling loop `while time.time() < deadline: if event.wait(0.1): ...`:
`true` when the event was observed before the deadline.  `fuel` bounds the
number of iterations modelled; a run that exhausts the fuel is reported as a
timeout, which agrees with the source whenever the clock reaches the
deadline within `fuel` polls (the theorems below never depend on the
exhaustion case in any other way). -/
def pollLoop (clock : Nat → ℚ) (ev : Nat → Bool) (deadline : ℚ) : Nat → Nat → Bool
  | _, 0 => false
  | i, fuel + 1 =>
    if clock i < deadline then
      if ev i then true else pollLoop clock ev deadline (i + 1) fuel
  else false

/-- Model of `fetch_camera_descriptions`: register the listener; on a start failure
clear the listener and raise (no shutdown); otherwise send the request, poll
until the event or the deadline, and in all cases run the `finally` block —
clear the listener, then shut the client down, in that order. -/
def fetchModel (w : FetchWorld) (timeout : ℚ) (fuel : Nat) : FetchResult :=
  if !w.runSucceeds then
    { outcome := .startFailure, trace := [.register, .unregister] }
  else
    let deadline := w.clock 0 + timeout
    if pollLoop w.clock w.ev deadline 1 fuel then
      { outcome := .success (parseCameraDescriptions w.rawCams)
        trace := [.register, .sendRequest, .unregister, .shutdown] }
    else
      { outcome := .timeout
        trace := [.register, .sendRequest, .unregister, .shutdown] }

/- ## Snapshot writer dedup
(`_hash_payload` and the comparison in `main`, `src/scripts/update_calib.py`) -/

/-- Sort the fields of an object by key (`json.dumps(..., sort_keys=True)`). -/
def sortFields (fields : List (String × JVal)) : List (String × JVal) :=
  List.insertionSort (fun a b => strLe a.1 b.1 = true) fields

/-- JSON string escaping (sufficient for the ASCII payloads in scope). -/
def escChar (c : Char) : List Char :=
  if c == '"' then ['\\', '"']
  else if c == '\\' then ['\\', '\\']
  else [c]

/- Deep key sort: `json.dumps(..., sort_keys=True)` emits the fields of
every object in sorted key order; sorting the tree first and then serializing
without further sorting is the same composite. -/
mutual
/-- Deep key sort of a JSON tree. -/
def sortKeys : JVal → JVal
  | .jobj fields => .jobj (sortFields (sortKeysFields fields))
  | .jarr elems => .jarr (sortKeysList elems)
  | v => v
/-- Deep key sort of array elements. -/
def sortKeysList : List JVal → List JVal
  | [] => []
  | v :: tl => sortKeys v :: sortKeysList tl
/-- Deep key sort of object field values. -/
def sortKeysFields : List (String × JVal) → List (String × JVal)
  | [] => []
  | (k, v) :: tl => (k, sortKeys v) :: sortKeysFields tl
end

mutual
/-- Model of `json.dumps(v, separators=(",", ":"))` of a key-sorted tree. -/
def serializeJVal : JVal → List Char
  | .jnull => "null".data
  | .jbool true => "true".data
  | .jbool false => "false".data
  | .jnum n => (toString n).data
  | .jstr s => '"' :: (s.data.flatMap escChar ++ ['"'])
  | .jarr elems => '[' :: (serializeArr elems ++ [']'])
  | .jobj fields => Char.ofNat 123 :: (serializeObj fields ++ [Char.ofNat 125])
/-- Comma-joined array elements. -/
def serializeArr : List JVal → List Char
  | [] => []
  | [v] => serializeJVal v
  | v :: rest => serializeJVal v ++ ',' :: serializeArr rest
/-- Comma-joined `"key":value` members. -/
def serializeObj : List (String × JVal) → List Char
  | [] => []
  | [(k, v)] => '"' :: (k.data.flatMap escChar ++ '"' :: ':' :: serializeJVal v)
  | (k, v) :: rest =>
    '"' :: (k.data.flatMap escChar ++ '"' :: ':' :: serializeJVal v) ++
      ',' :: serializeObj rest
end

/-- Model of `_hash_payload`: SHA-256 of the canonical serialization.  The digest is
modelled as the serialization itself — a collision-free abstraction of the
hash, which preserves exactly the equalities and inequalities the dedup
comparison can observe. -/
def hashPayload (p : JVal) : List Char := serializeJVal (sortKeys p)

/-- What `main` reports for the snapshot write. -/
inductive WriteOutcome where
  | unchanged
  | written
  deriving DecidableEq, Repr

/-- The dedup decision in `main`: when a latest existing payload was loaded,
skip the write iff its `_hash_payload` equals that of the candidate; with no
existing payload (no file, or unreadable JSON) always write. -/
def dedupOutcome (existing : Option JVal) (candidate : JVal) : WriteOutcome :=
  match existing with
  | some e => if hashPayload e = hashPayload candidate then .unchanged else .written
  | none => .written

/-- Modelled from the spec: the normalized payload the spec mandates for the
fingerprint comparison — the snapshot object with its `generated_at_utc`
field removed (§4.4 / §9 of the spec; the source has no such normalization,
which is the divergence under examination). -/
def stripGeneratedAt : JVal → JVal
  | .jobj fields => .jobj (fields.filter fun kv => kv.1 ≠ "generated_at_utc")
  | v => v

/-- The fallback default `setdefault` installs for each connection key. -/
def connFallback (k : String) : JVal :=
  if k = "server_ip" then .jstr "localhost"
  else if k = "client_ip" then .jstr "auto"
  else .jbool true

/- ## Concrete example inputs used by witnesses and counterexamples -/

/-- A snapshot payload as `main` assembles it. -/
def mkPayload (generatedAt : String) : JVal :=
  .jobj [("format_version", .jnum 1),
         ("generated_at_utc", .jstr generatedAt),
         ("server_ip", .jstr "10.40.49.47"),
         ("client_ip", .jstr "10.40.49.12"),
         ("room", .jstr "cork"),
         ("cameras", .jarr [.jobj [("name", .jstr "Prime 41 #11"),
                                   ("serial", .jnum 11),
                                   ("position", .jarr [.jnum 1, .jnum 2, .jnum 3]),
                                   ("orientation", .jarr [.jnum 0, .jnum 0, .jnum 0, .jnum 1])]])]

/-- A raw camera record carrying an extra attribute. -/
def exampleRawCamera : RawCamera :=
  { name := "Prime 41 #7"
    position := some [1, 2]
    orientation := some [0, 0, 0, 1, 5]
    extras := [("model_id", .jnum 41)] }

/-- A fetch environment whose client fails to start. -/
def worldStartFail : FetchWorld :=
  { runSucceeds := false, clock := fun _ => 0, ev := fun _ => false, rawCams := [] }

/-- A fetch environment that starts and has the event already signalled. -/
def worldEventReady : FetchWorld :=
  { runSucceeds := true, clock := fun _ => 0, ev := fun _ => true, rawCams := [] }

/-- A fetch environment that starts, with a clock that advances one second
per reading and an event signalled from the third poll on. -/
def worldLateEvent : FetchWorld :=
  { runSucceeds := true, clock := fun i => (i : ℚ), ev := fun i => decide (3 ≤ i)
    rawCams := [exampleRawCamera] }

/-- A concrete store state: two decodable cork snapshots, one undecodable
`.json` file with the cork prefix, a legacy pointer, and an unrelated file. -/
def exampleFS : CalibFS :=
  { rootEntries := some
      [⟨"cork_250314_0926.json", true⟩,
       ⟨"cork_250102_0915.json", true⟩,
       ⟨"cork_notadate.json", true⟩,
       ⟨"cork_latest.json", true⟩,
       ⟨"readme.txt", true⟩]
    latestChildren := [] }

/-- A store state holding only a legacy pointer file in `<root>/latest/`. -/
def legacyOnlyFS : CalibFS :=
  { rootEntries := some [⟨"readme.txt", true⟩]
    latestChildren := ["cork_calib.json"] }

/- ## Helper lemmas: digits and directive parsers -/

theorem toNat_dChar {n : Nat} (h : n ≤ 9) : (dChar n).toNat = 48 + n := by
  interval_cases n <;> decide

theorem isDigit_dChar {n : Nat} (h : n ≤ 9) : isDigit (dChar n) = true := by
  simp only [isDigit, toNat_dChar h, Bool.and_eq_true, decide_eq_true_eq]
  omega

theorem digitVal_dChar {n : Nat} (h : n ≤ 9) : digitVal (dChar n) = n := by
  simp only [digitVal, toNat_dChar h]
  omega

theorem digOpts2_pad2 (ok : Nat → Nat → Bool) {n : Nat} (hn : n ≤ 99) (rest : List Char)
    (hok : ok (n / 10) (n % 10) = true) :
    digOpts2 ok (pad2 n ++ rest) = [(n, rest)] := by
  have h1 : n / 10 ≤ 9 := by omega
  have h2 : n % 10 ≤ 9 := by omega
  have hv : 10 * (n / 10) + n % 10 = n := by omega
  simp only [pad2, List.cons_append, List.nil_append, digOpts2,
    isDigit_dChar h1, isDigit_dChar h2, digitVal_dChar h1, digitVal_dChar h2,
    hok, Bool.and_self, Bool.true_and, Bool.and_true, if_true, hv]

theorem digOpts2_pad2_no (ok : Nat → Nat → Bool) {n : Nat} (hn : n ≤ 99) (rest : List Char)
    (hok : ok (n / 10) (n % 10) = false) :
    digOpts2 ok (pad2 n ++ rest) = [] := by
  have h1 : n / 10 ≤ 9 := by omega
  have h2 : n % 10 ≤ 9 := by omega
  simp only [pad2, List.cons_append, List.nil_append, digOpts2,
    isDigit_dChar h1, isDigit_dChar h2, digitVal_dChar h1, digitVal_dChar h2,
    hok, Bool.and_self, Bool.true_and, Bool.and_true, Bool.and_false,
    Bool.false_eq_true, ite_false]

theorem parseY2_pad2 (y : Nat) (hy : y ≤ 99) (rest : List Char) :
    ∃ tl, parseY2 (pad2 y ++ rest) = (y, rest) :: tl := by
  refine ⟨[], ?_⟩
  simp only [parseY2, digOpts2_pad2 (fun _ _ => true) hy rest rfl]

theorem parseMon_pad2 (m : Nat) (h1 : 1 ≤ m) (h2 : m ≤ 12) (rest : List Char) :
    ∃ tl, parseMon (pad2 m ++ rest) = (m, rest) :: tl := by
  have h99 : m ≤ 99 := by omega
  by_cases hm : m ≤ 9
  · have ha : (m / 10 == 1 && decide (m % 10 ≤ 2)) = false := by
      have h0 : m / 10 = 0 := by omega
      simp [h0]
    have hb : (m / 10 == 0 && decide (1 ≤ m % 10)) = true := by
      have h0 : m / 10 = 0 := by omega
      have h3 : 1 ≤ m % 10 := by omega
      simp [h0, h3]
    refine ⟨digOpts1 (fun a => decide (1 ≤ a)) (pad2 m ++ rest), ?_⟩
    simp only [parseMon,
      digOpts2_pad2_no (fun a b => a == 1 && decide (b ≤ 2)) h99 rest ha,
      digOpts2_pad2 (fun a b => a == 0 && decide (1 ≤ b)) h99 rest hb,
      List.nil_append, List.singleton_append]
  · have ha : (m / 10 == 1 && decide (m % 10 ≤ 2)) = true := by
      have h0 : m / 10 = 1 := by omega
      have h3 : m % 10 ≤ 2 := by omega
      simp [h0, h3]
    refine ⟨digOpts2 (fun a b => a == 0 && decide (1 ≤ b)) (pad2 m ++ rest) ++
      digOpts1 (fun a => decide (1 ≤ a)) (pad2 m ++ rest), ?_⟩
    simp only [parseMon,
      digOpts2_pad2 (fun a b => a == 1 && decide (b ≤ 2)) h99 rest ha,
      List.singleton_append, List.cons_append, List.nil_append]

theorem parseDay_pad2 (d : Nat) (h1 : 1 ≤ d) (h2 : d ≤ 31) (rest : List Char) :
    ∃ tl, parseDay (pad2 d ++ rest) = (d, rest) :: tl := by
  have h99 : d ≤ 99 := by omega
  rcases Nat.lt_or_ge d 10 with hd | hd
  · have ha : (d / 10 == 3 && decide (d % 10 ≤ 1)) = false := by
      have h0 : d / 10 = 0 := by omega
      simp [h0]
    have hb : (d / 10 == 1 || d / 10 == 2) = false := by
      have h0 : d / 10 = 0 := by omega
      simp [h0]
    have hc : (d / 10 == 0 && decide (1 ≤ d % 10)) = true := by
      have h0 : d / 10 = 0 := by omega
      have h3 : 1 ≤ d % 10 := by omega
      simp [h0, h3]
    refine ⟨digOpts1 (fun a => decide (1 ≤ a)) (pad2 d ++ rest) ++
      spaceDigOpts (fun a => decide (1 ≤ a)) (pad2 d ++ rest), ?_⟩
    simp only [parseDay,
      digOpts2_pad2_no (fun a b => a == 3 && decide (b ≤ 1)) h99 rest ha,
      digOpts2_pad2_no (fun a _ => a == 1 || a == 2) h99 rest hb,
      digOpts2_pad2 (fun a b => a == 0 && decide (1 ≤ b)) h99 rest hc,
      List.nil_append, List.singleton_append, List.cons_append, List.append_assoc]
  · rcases Nat.lt_or_ge d 30 with hd3 | hd3
    · have ha : (d / 10 == 3 && decide (d % 10 ≤ 1)) = false := by
        have h0 : d / 10 = 1 ∨ d / 10 = 2 := by omega
        rcases h0 with h0 | h0 <;> simp [h0]
      have hb : (d / 10 == 1 || d / 10 == 2) = true := by
        have h0 : d / 10 = 1 ∨ d / 10 = 2 := by omega
        rcases h0 with h0 | h0 <;> simp [h0]
      refine ⟨digOpts2 (fun a b => a == 0 && decide (1 ≤ b)) (pad2 d ++ rest) ++
        (digOpts1 (fun a => decide (1 ≤ a)) (pad2 d ++ rest) ++
          spaceDigOpts (fun a => decide (1 ≤ a)) (pad2 d ++ rest)), ?_⟩
      simp only [parseDay,
        digOpts2_pad2_no (fun a b => a == 3 && decide (b ≤ 1)) h99 rest ha,
        digOpts2_pad2 (fun a _ => a == 1 || a == 2) h99 rest hb,
        List.nil_append, List.singleton_append, List.cons_append, List.append_assoc]
    · have ha : (d / 10 == 3 && decide (d % 10 ≤ 1)) = true := by
        have h0 : d / 10 = 3 := by omega
        have h3 : d % 10 ≤ 1 := by omega
        simp [h0, h3]
      refine ⟨digOpts2 (fun a _ => a == 1 || a == 2) (pad2 d ++ rest) ++
        (digOpts2 (fun a b => a == 0 && decide (1 ≤ b)) (pad2 d ++ rest) ++
          (digOpts1 (fun a => decide (1 ≤ a)) (pad2 d ++ rest) ++
            spaceDigOpts (fun a => decide (1 ≤ a)) (pad2 d ++ rest))), ?_⟩
      simp only [parseDay,
        digOpts2_pad2 (fun a b => a == 3 && decide (b ≤ 1)) h99 rest ha,
        List.singleton_append, List.cons_append, List.append_assoc, List.nil_append]

theorem parseHour_pad2 (h : Nat) (hh : h ≤ 23) (rest : List Char) :
    ∃ tl, parseHour (pad2 h ++ rest) = (h, rest) :: tl := by
  have h99 : h ≤ 99 := by omega
  rcases Nat.lt_or_ge h 20 with h2 | h2
  · have ha : (h / 10 == 2 && decide (h % 10 ≤ 3)) = false := by
      have h0 : h / 10 = 0 ∨ h / 10 = 1 := by omega
      rcases h0 with h0 | h0 <;> simp [h0]
    have hb : decide (h / 10 ≤ 1) = true := by
      have h0 : h / 10 ≤ 1 := by omega
      simp [h0]
    refine ⟨digOpts1 (fun _ => true) (pad2 h ++ rest), ?_⟩
    simp only [parseHour,
      digOpts2_pad2_no (fun a b => a == 2 && decide (b ≤ 3)) h99 rest ha,
      digOpts2_pad2 (fun a _ => decide (a ≤ 1)) h99 rest hb,
      List.nil_append, List.singleton_append]
  · have ha : (h / 10 == 2 && decide (h % 10 ≤ 3)) = true := by
      have h0 : h / 10 = 2 := by omega
      have h3 : h % 10 ≤ 3 := by omega
      simp [h0, h3]
    refine ⟨digOpts2 (fun a _ => decide (a ≤ 1)) (pad2 h ++ rest) ++
      digOpts1 (fun _ => true) (pad2 h ++ rest), ?_⟩
    simp only [parseHour,
      digOpts2_pad2 (fun a b => a == 2 && decide (b ≤ 3)) h99 rest ha,
      List.singleton_append, List.cons_append, List.nil_append]

theorem parseMin_pad2 (mi : Nat) (hmi : mi ≤ 59) (rest : List Char) :
    ∃ tl, parseMin (pad2 mi ++ rest) = (mi, rest) :: tl := by
  have h99 : mi ≤ 99 := by omega
  have ha : decide (mi / 10 ≤ 5) = true := by
    have h0 : mi / 10 ≤ 5 := by omega
    simp [h0]
  refine ⟨digOpts1 (fun _ => true) (pad2 mi ++ rest), ?_⟩
  simp only [parseMin, digOpts2_pad2 (fun a _ => decide (a ≤ 5)) h99 rest ha,
    List.singleton_append]

theorem daysInMonth_le (y m : Nat) : daysInMonth y m ≤ 31 := by
  unfold daysInMonth
  split_ifs <;> omega

theorem tokenMatches_encode_head (t : Instant) (hmo1 : 1 ≤ t.month) (hmo2 : t.month ≤ 12)
    (hd1 : 1 ≤ t.day) (hd2 : t.day ≤ 31) (hh : t.hour ≤ 23) (hmi : t.minute ≤ 59) :
    (tokenMatches (encodeToken t)).head? =
      some (t.year % 100, t.month, t.day, t.hour, t.minute, []) := by
  obtain ⟨tlY, hY⟩ := parseY2_pad2 (t.year % 100) (by omega)
    (pad2 t.month ++ (pad2 t.day ++ '_' :: (pad2 t.hour ++ pad2 t.minute)))
  obtain ⟨tlM, hM⟩ := parseMon_pad2 t.month hmo1 hmo2
    (pad2 t.day ++ '_' :: (pad2 t.hour ++ pad2 t.minute))
  obtain ⟨tlD, hD⟩ := parseDay_pad2 t.day hd1 hd2 ('_' :: (pad2 t.hour ++ pad2 t.minute))
  obtain ⟨tlH, hH⟩ := parseHour_pad2 t.hour hh (pad2 t.minute)
  obtain ⟨tlMi, hMi⟩ := parseMin_pad2 t.minute hmi []
  rw [List.append_nil] at hMi
  have h0 : encodeToken t =
      pad2 (t.year % 100) ++
        (pad2 t.month ++ (pad2 t.day ++ '_' :: (pad2 t.hour ++ pad2 t.minute))) := by
    simp [encodeToken, List.append_assoc]
  rw [h0]
  simp only [tokenMatches, hY, hM, hD, hH, hMi, nbind, litC, beq_self_eq_true,
    if_true, List.cons_append, List.nil_append, List.append_nil, List.append_assoc,
    List.head?_cons]

theorem strptime_encodeToken (t : Instant) (hv : t.valid) (hy1 : 1969 ≤ t.year)
    (hy2 : t.year ≤ 2068) : strptimeToken (encodeToken t) = some t := by
  obtain ⟨ha, hb, hmo1, hmo2, hd1, hd2, hhr, hmi⟩ := id hv
  have hd31 : t.day ≤ 31 := hd2.trans (daysInMonth_le _ _)
  have hhead := tokenMatches_encode_head t hmo1 hmo2 hd1 hd31 hhr hmi
  have hmap : mapY (t.year % 100) = t.year := by
    unfold mapY
    split_ifs <;> omega
  unfold strptimeToken
  cases htm : tokenMatches (encodeToken t) with
  | nil => rw [htm] at hhead; simp at hhead
  | cons hd tl =>
    rw [htm] at hhead
    simp only [List.head?_cons, Option.some.injEq] at hhead
    subst hhead
    dsimp only
    rw [if_pos rfl, hmap]
    have heta : (⟨t.year, t.month, t.day, t.hour, t.minute⟩ : Instant) = t := rfl
    rw [heta, if_pos hv]

theorem listStartsWith_append (px rest : List Char) :
    listStartsWith (px ++ rest) px = true := by
  induction px with
  | nil => simp [listStartsWith]
  | cons c tl ih => simp [listStartsWith, ih]

theorem listEndsWith_append (l suf : List Char) :
    listEndsWith (l ++ suf) suf = true := by
  unfold listEndsWith
  have harith : (l ++ suf).length - suf.length = l.length := by
    simp [List.length_append]
  rw [harith, List.drop_left]
  exact beq_self_eq_true suf

/-- C6: decoding the filename built from the room prefix, the encoded
`YYMMDD_HHMM` token of a minute-resolution instant, and the `.json` suffix,
with the same room, yields the instant back — for every valid instant whose
year lies in the two-digit-year range 1969–2068 and every room. -/
theorem c6_codec_roundtrip (t : Instant) (room : Option String) (hv : t.valid)
    (hy1 : 1969 ≤ t.year) (hy2 : t.year ≤ 2068) :
    parseCalibTimestamp (roomPx room ++ String.mk (encodeToken t) ++ ".json") room =
      some t := by
  have hdata : (roomPx room ++ String.mk (encodeToken t) ++ ".json").data =
      (roomPx room).data ++ (encodeToken t ++ ".json".data) := by
    simp [String.data_append, List.append_assoc]
  have hlen11 : (encodeToken t).length = 11 := by
    simp [encodeToken, pad2]
  have hpxlen : (roomPx room).length = (roomPx room).data.length := rfl
  have h5 : (".json".data : List Char).length = 5 := rfl
  have hlen : (roomPx room ++ String.mk (encodeToken t) ++ ".json").length =
      (roomPx room).length + 16 := by
    have hd : (roomPx room ++ String.mk (encodeToken t) ++ ".json").length =
        (roomPx room ++ String.mk (encodeToken t) ++ ".json").data.length := rfl
    rw [hd, hdata, List.length_append, List.length_append, hlen11, h5, hpxlen]
  unfold parseCalibTimestamp
  rw [hdata, hlen]
  rw [hpxlen, listStartsWith_append]
  have hends : listEndsWith ((roomPx room).data ++ (encodeToken t ++ ".json".data))
      ".json".data = true := by
    have : (roomPx room).data ++ (encodeToken t ++ ".json".data) =
        ((roomPx room).data ++ encodeToken t) ++ ".json".data := by
      simp [List.append_assoc]
    rw [this]
    exact listEndsWith_append _ _
  rw [hends]
  simp only [Bool.and_self, if_true]
  have hdrop : ((roomPx room).data ++ (encodeToken t ++ ".json".data)).drop
      (roomPx room).data.length = encodeToken t ++ ".json".data := List.drop_left _ _
  rw [hdrop]
  have harith : (roomPx room).data.length + 16 - (roomPx room).data.length - 5 = 11 := by
    omega
  rw [harith, ← hlen11, List.take_left]
  exact strptime_encodeToken t hv hy1 hy2

/-- C6 witness: the round trip at the concrete instant 2025-03-14 09:26 in
room `cork`. -/
theorem c6_codec_roundtrip_witness :
    Instant.valid ⟨2025, 3, 14, 9, 26⟩ ∧
    parseCalibTimestamp
      (roomPx (some "cork") ++ String.mk (encodeToken ⟨2025, 3, 14, 9, 26⟩) ++ ".json")
      (some "cork") = some ⟨2025, 3, 14, 9, 26⟩ :=
  ⟨by decide,
    c6_codec_roundtrip ⟨2025, 3, 14, 9, 26⟩ (some "cork") (by decide) (by decide) (by decide)⟩

/- ## Camera normalization lemmas -/

theorem normPos_eq (src : List ℚ) : normPos src = (src ++ [0, 0, 0]).take 3 := by
  unfold normPos
  by_cases h : src.length < 3
  · rw [if_pos h, List.take_take, Nat.min_self]
  · rw [if_neg h, List.take_append_of_le_length (by omega)]

theorem normOrient_eq (src : List ℚ) :
    normOrient src = (src ++ [0, 0, 0, 1]).take 4 := by
  unfold normOrient
  by_cases h : src.length < 4
  · rw [if_pos h, List.take_take, Nat.min_self]
  · rw [if_neg h, List.take_append_of_le_length (by omega)]

theorem normPos_length (src : List ℚ) : (normPos src).length = 3 := by
  rw [normPos_eq, List.length_take, List.length_append]
  simp

theorem normOrient_length (src : List ℚ) : (normOrient src).length = 4 := by
  rw [normOrient_eq, List.length_take, List.length_append]
  simp

/-- C4: every parsed camera record carries a position of exactly 3 components
and an orientation of exactly 4, and for every shape of source data the
position equals the first 3 entries of the source padded with `[0,0,0]` and
the orientation the first 4 entries of the source padded with `[0,0,0,1]` —
one equation covering both the padding of short sources and the truncation
of long ones. -/
theorem c4_camera_normalization (c : RawCamera) :
    (parseCamera c).lookup "position" = some (.vvec (normPos c.srcPos)) ∧
    (parseCamera c).lookup "orientation" = some (.vvec (normOrient c.srcOrient)) ∧
    normPos c.srcPos = (c.srcPos ++ [0, 0, 0]).take 3 ∧
    normOrient c.srcOrient = (c.srcOrient ++ [0, 0, 0, 1]).take 4 ∧
    (normPos c.srcPos).length = 3 ∧ (normOrient c.srcOrient).length = 4 :=
  ⟨rfl, rfl, normPos_eq _, normOrient_eq _, normPos_length _, normOrient_length _⟩

/-- C5 counterexample: the claim "every extra field of the source camera
record is preserved in the resulting record" is false — `exampleRawCamera`
carries the extra field `model_id`, and the keys of the parsed record do not
include it. -/
theorem c5_counterexample :
    ¬ (∀ (c : RawCamera) (k : String) (v : JVal), (k, v) ∈ c.extras →
        k ∈ (parseCamera c).map Prod.fst) := by
  intro h
  have hm := h exampleRawCamera "model_id" (.jnum 41) (by simp [exampleRawCamera])
  revert hm
  decide

/-- C5 amended: the parsed camera record contains exactly the keys `name`,
`serial`, `position`, `orientation`; extra source fields are dropped — the
result does not depend on them at all. -/
theorem c5_amended (c : RawCamera) :
    (parseCamera c).map Prod.fst = ["name", "serial", "position", "orientation"] ∧
    parseCamera { c with extras := [] } = parseCamera c :=
  ⟨rfl, rfl⟩

/- ## Fetch cleanup and timeout -/

/-- C2 counterexample: the claim that the client is shut down on every exit
path is false — when `client.run` fails, the source clears the listener
and raises without calling `shutdown()`. -/
theorem c2_counterexample :
    ¬ (∀ (w : FetchWorld) (timeout : ℚ) (fuel : Nat),
        FEvent.shutdown ∈ (fetchModel w timeout fuel).trace) := by
  intro h
  have hm := h worldStartFail 1 0
  revert hm
  decide

/-- C2 amended: the listener is unregistered on every exit path; on every
exit path after a successful start (success and timeout alike) the `finally`
block unregisters the listener and then shuts the client down, in that
order; on a start failure only the listener is unregistered and the client
is never shut down. -/
theorem c2_amended (w : FetchWorld) (timeout : ℚ) (fuel : Nat) :
    FEvent.unregister ∈ (fetchModel w timeout fuel).trace ∧
    (w.runSucceeds = true →
      (fetchModel w timeout fuel).trace =
        [.register, .sendRequest, .unregister, .shutdown]) ∧
    (w.runSucceeds = false →
      (fetchModel w timeout fuel).trace = [.register, .unregister] ∧
      FEvent.shutdown ∉ (fetchModel w timeout fuel).trace) := by
  cases hrs : w.runSucceeds with
  | false =>
    have htr : (fetchModel w timeout fuel).trace = [.register, .unregister] := by
      simp [fetchModel, hrs]
    refine ⟨by rw [htr]; decide, ?_, fun _ => ⟨htr, by rw [htr]; decide⟩⟩
    intro hc
    simp [hrs] at hc
  | true =>
    have htr : (fetchModel w timeout fuel).trace =
        [.register, .sendRequest, .unregister, .shutdown] := by
      rcases Bool.eq_false_or_eq_true
          (pollLoop w.clock w.ev (w.clock 0 + timeout) 1 fuel) with hp | hp <;>
        simp [fetchModel, hrs, hp]
    refine ⟨by rw [htr]; decide, fun _ => htr, ?_⟩
    intro hc
    simp [hrs] at hc

/-- C2 witness: the amended statement evaluated at a failing start and at a
successful start. -/
theorem c2_amended_witness :
    (fetchModel worldStartFail 1 0).trace = [.register, .unregister] ∧
    FEvent.shutdown ∉ (fetchModel worldStartFail 1 0).trace ∧
    (fetchModel worldEventReady 1 1).trace =
      [.register, .sendRequest, .unregister, .shutdown] :=
  ⟨((c2_amended worldStartFail 1 0).2.2 rfl).1,
    ((c2_amended worldStartFail 1 0).2.2 rfl).2,
    (c2_amended worldEventReady 1 1).2.1 rfl⟩

/-- C10: with a non-positive timeout and a monotone clock, the guard of the
polling loop fails on its first evaluation, so a started fetch always times out —
running the `finally` cleanup — and never returns a camera list, regardless
of the event state (in particular even when the event was signalled before
the wait began). -/
theorem c10_nonpositive_timeout (w : FetchWorld) (timeout : ℚ) (fuel : Nat)
    (hrun : w.runSucceeds = true) (ht : timeout ≤ 0)
    (hmono : ∀ i j : Nat, i ≤ j → w.clock i ≤ w.clock j) :
    fetchModel w timeout fuel =
      { outcome := .timeout, trace := [.register, .sendRequest, .unregister, .shutdown] } := by
  have hguard : pollLoop w.clock w.ev (w.clock 0 + timeout) 1 fuel = false := by
    cases fuel with
    | zero => rfl
    | succ n =>
      unfold pollLoop
      rw [if_neg]
      intro hlt
      have h01 := hmono 0 1 (by omega)
      linarith
  simp only [fetchModel, hrun, Bool.not_true, Bool.false_eq_true, if_false, hguard]

/-- C10 witness: a zero timeout with the event already signalled still times
out. -/
theorem c10_nonpositive_timeout_witness :
    worldEventReady.runSucceeds = true ∧
    fetchModel worldEventReady 0 5 =
      { outcome := .timeout, trace := [.register, .sendRequest, .unregister, .shutdown] } :=
  ⟨rfl, c10_nonpositive_timeout worldEventReady 0 5 rfl (le_refl 0) (fun _ _ _ => le_refl 0)⟩

/- ## Writer dedup divergence -/

set_option maxRecDepth 4000 in
/-- C1 (code-bug evidence): two candidate payloads identical except for
`generated_at_utc` — so identical after the spec-mandated normalization —
are nevertheless hashed as different by `_hash_payload`, and the dedup check
in `main` reports "written" instead of "unchanged". -/
theorem c1_dedup_divergence :
    stripGeneratedAt (mkPayload "2025-01-01T00:00:00Z") =
      stripGeneratedAt (mkPayload "2025-01-01T00:00:01Z") ∧
    dedupOutcome (some (mkPayload "2025-01-01T00:00:00Z"))
      (mkPayload "2025-01-01T00:00:01Z") = .written := by
  constructor
  · rfl
  · decide

/- ## Python dict lemmas -/

theorem lookup_cons_ne {k k1 : String} (hbe : (k == k1) = false) (v1 : JVal) (tl : DStr) :
    List.lookup k ((k1, v1) :: tl) = List.lookup k tl := by
  simp [List.lookup, hbe]

theorem lookup_cons_self (k : String) (v1 : JVal) (tl : DStr) :
    List.lookup k ((k, v1) :: tl) = some v1 := by
  simp [List.lookup]

theorem lookup_append (d e : DStr) (k : String) :
    List.lookup k (d ++ e) =
      match List.lookup k d with
      | some v => some v
      | none => List.lookup k e := by
  induction d with
  | nil => simp [List.lookup]
  | cons a tl ih =>
    cases a with
    | mk k' v' =>
      cases hbe : (k == k') <;> simp [List.lookup, hbe, ih]

theorem lookup_eq_none_of_not_mem {k : String} {d : DStr}
    (h : k ∉ d.map Prod.fst) : List.lookup k d = none := by
  induction d with
  | nil => rfl
  | cons a tl ih =>
    cases a with
    | mk k' v' =>
      simp only [List.map, List.mem_cons, not_or] at h
      have hbe : (k == k') = false := by
        simp [h.1]
      simp [List.lookup, hbe, ih h.2]

theorem lookup_map_replace (d : DStr) (k : String) (v : JVal) :
    List.lookup k (d.map fun kv => if kv.1 = k then (k, v) else kv) =
      if (List.lookup k d).isSome then some v else none := by
  induction d with
  | nil => simp [List.lookup]
  | cons a tl ih =>
    cases a with
    | mk k1 v1 =>
      simp only [List.map_cons]
      by_cases hk : k1 = k
      · subst hk
        rw [if_pos rfl]
        simp [List.lookup]
      · rw [if_neg hk]
        have hbe : (k == k1) = false := by
          simp [Ne.symm hk]
        rw [lookup_cons_ne hbe, lookup_cons_ne hbe, ih]

theorem lookup_map_replace_ne {k' k : String} (h : k' ≠ k) (d : DStr) (v : JVal) :
    List.lookup k' (d.map fun kv => if kv.1 = k then (k, v) else kv) =
      List.lookup k' d := by
  induction d with
  | nil => rfl
  | cons a tl ih =>
    cases a with
    | mk k1 v1 =>
      simp only [List.map_cons]
      by_cases hk1 : k1 = k
      · subst hk1
        rw [if_pos rfl]
        have hbe : (k' == k1) = false := by
          simp [h]
        simp [List.lookup, hbe, ih]
      · rw [if_neg hk1]
        cases hbe : (k' == k1) <;> simp [List.lookup, hbe, ih]

theorem lookup_dSet_self (d : DStr) (k : String) (v : JVal) :
    List.lookup k (dSet d k v) = some v := by
  unfold dSet
  by_cases h : (List.lookup k d).isSome
  · rw [if_pos h, lookup_map_replace, if_pos h]
  · rw [if_neg h, lookup_append, Option.not_isSome_iff_eq_none.mp h]
    simp [List.lookup]

theorem lookup_dSet_ne {k' k : String} (h : k' ≠ k) (d : DStr) (v : JVal) :
    List.lookup k' (dSet d k v) = List.lookup k' d := by
  unfold dSet
  by_cases hp : (List.lookup k d).isSome
  · rw [if_pos hp, lookup_map_replace_ne h]
  · rw [if_neg hp, lookup_append]
    have hbe : (k' == k) = false := by
      simp [h]
    cases hl : List.lookup k' d <;> simp [List.lookup, hbe]

theorem dUpdate_cons (d : DStr) (k : String) (v : JVal) (tl : DStr) :
    dUpdate d ((k, v) :: tl) = dUpdate (dSet d k v) tl := rfl

theorem lookup_dUpdate_of_none {src : DStr} {k : String}
    (h : List.lookup k src = none) (d : DStr) :
    List.lookup k (dUpdate d src) = List.lookup k d := by
  induction src generalizing d with
  | nil => rfl
  | cons a tl ih =>
    cases a with
    | mk k1 v1 =>
      have hbe : (k == k1) = false := by
        cases hbe : (k == k1)
        · rfl
        · simp [List.lookup, hbe] at h
      have htl : List.lookup k tl = none := by
        simpa [List.lookup, hbe] using h
      rw [dUpdate_cons, ih htl, lookup_dSet_ne (by simpa using hbe)]

theorem lookup_dUpdate_of_some {src : DStr} {k : String} {v : JVal}
    (hnd : (src.map Prod.fst).Nodup) (h : List.lookup k src = some v) (d : DStr) :
    List.lookup k (dUpdate d src) = some v := by
  induction src generalizing d with
  | nil => simp [List.lookup] at h
  | cons a tl ih =>
    cases a with
    | mk k1 v1 =>
      rw [dUpdate_cons]
      rw [List.map_cons] at hnd
      cases hbe : (k == k1) with
      | true =>
        have hk : k = k1 := by simpa using hbe
        subst hk
        have hv : v1 = v := by
          simpa [List.lookup] using h
        subst hv
        have hnotin : k ∉ tl.map Prod.fst := (List.nodup_cons.mp hnd).1
        rw [lookup_dUpdate_of_none (lookup_eq_none_of_not_mem hnotin)]
        exact lookup_dSet_self _ _ _
      | false =>
        have htl : List.lookup k tl = some v := by
          simpa [List.lookup, hbe] using h
        exact ih (List.nodup_cons.mp hnd).2 htl _

theorem lookup_dSetDefault_of_some {d : DStr} {k : String} {v' : JVal}
    (h : List.lookup k d = some v') (k0 : String) (v : JVal) :
    List.lookup k (dSetDefault d k0 v) = some v' := by
  unfold dSetDefault
  split_ifs with hp
  · exact h
  · rw [lookup_append, h]

theorem lookup_dSetDefault_ne {k k0 : String} (h : k ≠ k0) (d : DStr) (v : JVal) :
    List.lookup k (dSetDefault d k0 v) = List.lookup k d := by
  unfold dSetDefault
  split_ifs with hp
  · rfl
  · rw [lookup_append]
    have hbe : (k == k0) = false := by
      simp [h]
    cases hl : List.lookup k d <;> simp [List.lookup, hbe]

theorem lookup_dSetDefault_self_of_none {d : DStr} {k0 : String}
    (h : List.lookup k0 d = none) (v : JVal) :
    List.lookup k0 (dSetDefault d k0 v) = some v := by
  unfold dSetDefault
  rw [if_neg (by simp [h]), lookup_append, h]
  simp [List.lookup]

theorem mem_keys_dSet {k' : String} {d : DStr} {k : String} {v : JVal}
    (h : k' ∈ (dSet d k v).map Prod.fst) : k' ∈ d.map Prod.fst ∨ k' = k := by
  unfold dSet at h
  split_ifs at h with hp
  · rw [List.map_map] at h
    obtain ⟨kv, hkv, hkv'⟩ := List.mem_map.mp h
    by_cases hk : kv.1 = k
    · right
      simpa [hk] using hkv'.symm
    · left
      rw [Function.comp_apply, if_neg hk] at hkv'
      exact hkv' ▸ List.mem_map_of_mem Prod.fst hkv
  · rw [List.map_append] at h
    rcases List.mem_append.mp h with h1 | h1
    · exact Or.inl h1
    · right
      simpa using h1

theorem mem_keys_dUpdate {k' : String} {src : DStr} :
    ∀ {d : DStr}, k' ∈ (dUpdate d src).map Prod.fst →
      k' ∈ d.map Prod.fst ∨ k' ∈ src.map Prod.fst := by
  induction src with
  | nil => exact fun h => Or.inl h
  | cons a tl ih =>
    intro d h
    cases a with
    | mk k1 v1 =>
      rw [dUpdate_cons] at h
      rcases ih h with h1 | h1
      · rcases mem_keys_dSet h1 with h2 | h2
        · exact Or.inl h2
        · exact Or.inr (by simp [h2])
      · exact Or.inr (by simp [h1])

theorem mem_keys_dSetDefault {k' : String} {d : DStr} {k0 : String} {v : JVal}
    (h : k' ∈ (dSetDefault d k0 v).map Prod.fst) :
    k' ∈ d.map Prod.fst ∨ k' = k0 := by
  unfold dSetDefault at h
  split_ifs at h with hp
  · exact Or.inl h
  · rw [List.map_append] at h
    rcases List.mem_append.mp h with h1 | h1
    · exact Or.inl h1
    · right
      simpa using h1

theorem mem_keys_filter {k' : String} {l : DStr}
    (h : k' ∈ (l.filter fun kv => decide (kv.1 ∈ CONNECTION_FIELDS)).map Prod.fst) :
    k' ∈ CONNECTION_FIELDS := by
  obtain ⟨kv, hkv, hfst⟩ := List.mem_map.mp h
  have hp := (List.mem_filter.mp hkv).2
  rw [← hfst]
  simpa using hp

theorem lookup_merge_core (m2 : DStr) (k : String)
    (hk : k = "server_ip" ∨ k = "client_ip" ∨ k = "use_multicast") :
    List.lookup k
        (dSetDefault (dSetDefault (dSetDefault m2 "server_ip" (.jstr "localhost"))
          "client_ip" (.jstr "auto")) "use_multicast" (.jbool true)) =
      match List.lookup k m2 with
      | some v => some v
      | none => some (connFallback k) := by
  cases hm : List.lookup k m2 with
  | some v =>
    have h1 := lookup_dSetDefault_of_some hm "server_ip" (JVal.jstr "localhost")
    have h2 := lookup_dSetDefault_of_some h1 "client_ip" (JVal.jstr "auto")
    have h3 := lookup_dSetDefault_of_some h2 "use_multicast" (JVal.jbool true)
    rw [h3]
  | none =>
    rcases hk with hk | hk | hk <;> subst hk
    · have h1 : List.lookup "server_ip"
          (dSetDefault m2 "server_ip" (JVal.jstr "localhost")) =
            some (JVal.jstr "localhost") :=
        lookup_dSetDefault_self_of_none hm _
      have h2 := lookup_dSetDefault_of_some h1 "client_ip" (JVal.jstr "auto")
      have h3 := lookup_dSetDefault_of_some h2 "use_multicast" (JVal.jbool true)
      rw [h3]
      rfl
    · have h0 : List.lookup "client_ip"
          (dSetDefault m2 "server_ip" (JVal.jstr "localhost")) = none := by
        rw [lookup_dSetDefault_ne (by decide)]
        exact hm
      have h1 := lookup_dSetDefault_self_of_none h0 (JVal.jstr "auto")
      have h2 := lookup_dSetDefault_of_some h1 "use_multicast" (JVal.jbool true)
      rw [h2]
      rfl
    · have h0 : List.lookup "use_multicast"
          (dSetDefault (dSetDefault m2 "server_ip" (JVal.jstr "localhost"))
            "client_ip" (JVal.jstr "auto")) = none := by
        rw [lookup_dSetDefault_ne (by decide), lookup_dSetDefault_ne (by decide)]
        exact hm
      have h1 := lookup_dSetDefault_self_of_none h0 (JVal.jbool true)
      rw [h1]
      rfl

/-- C9 counterexample: the claim "the resulting connection mapping is
restricted to the keys `server_ip`, `client_ip`, `use_multicast`" is false —
caller-supplied overrides are merged without the `CONNECTION_FIELDS` filter,
so an override entry with the key `extra` survives into the result. -/
theorem c9_counterexample :
    ¬ (∀ (defaults conn overrides : DStr) (kv : String × JVal),
        kv ∈ mergeConnection defaults conn overrides → kv.1 ∈ CONNECTION_FIELDS) := by
  intro h
  have hv : mergeConnection [] [] [("extra", JVal.jnum 1)] =
      [("extra", .jnum 1), ("server_ip", .jstr "localhost"),
       ("client_ip", .jstr "auto"), ("use_multicast", .jbool true)] := rfl
  have hm := h [] [] [("extra", JVal.jnum 1)] ("extra", JVal.jnum 1)
    (by rw [hv]; exact List.mem_cons_self _ _)
  revert hm
  decide

/-- C9 amended: the `CONNECTION_FIELDS` restriction applies to the preset
`default` and `connection` mappings only — every key of the result is either
one of the three connection fields or a key of the caller overrides, which
are merged unfiltered; and on the three connection fields the precedence is
caller overrides, then preset `connection`, then preset `default`, then the
fallback defaults `server_ip="localhost"`, `client_ip="auto"`,
`use_multicast=true`. -/
theorem c9_amended (defaults conn overrides : DStr)
    (hc : (conn.map Prod.fst).Nodup) (ho : (overrides.map Prod.fst).Nodup) :
    (∀ k' ∈ (mergeConnection defaults conn overrides).map Prod.fst,
      k' ∈ CONNECTION_FIELDS ∨ k' ∈ overrides.map Prod.fst) ∧
    (∀ k ∈ CONNECTION_FIELDS,
      List.lookup k (mergeConnection defaults conn overrides) =
        match List.lookup k overrides with
        | some v => some v
        | none =>
          match List.lookup k (conn.filter fun kv => decide (kv.1 ∈ CONNECTION_FIELDS)) with
          | some v => some v
          | none =>
            match List.lookup k
                (defaults.filter fun kv => decide (kv.1 ∈ CONNECTION_FIELDS)) with
            | some v => some v
            | none => some (connFallback k)) := by
  constructor
  · intro k' hk'
    simp only [mergeConnection] at hk'
    rcases mem_keys_dSetDefault hk' with h1 | h1
    rotate_left
    · exact Or.inl (by rw [h1]; decide)
    rcases mem_keys_dSetDefault h1 with h2 | h2
    rotate_left
    · exact Or.inl (by rw [h2]; decide)
    rcases mem_keys_dSetDefault h2 with h3 | h3
    rotate_left
    · exact Or.inl (by rw [h3]; decide)
    by_cases hemp : overrides.isEmpty
    · rw [if_pos hemp] at h3
      rcases mem_keys_dUpdate h3 with h4 | h4
      · exact Or.inl (mem_keys_filter h4)
      · exact Or.inl (mem_keys_filter h4)
    · rw [if_neg hemp] at h3
      rcases mem_keys_dUpdate h3 with h4 | h4
      · rcases mem_keys_dUpdate h4 with h5 | h5
        · exact Or.inl (mem_keys_filter h5)
        · exact Or.inl (mem_keys_filter h5)
      · exact Or.inr h4
  · intro k hk
    have hk3 : k = "server_ip" ∨ k = "client_ip" ∨ k = "use_multicast" := by
      simpa [CONNECTION_FIELDS] using hk
    have hconnF : ((conn.filter fun kv =>
        decide (kv.1 ∈ CONNECTION_FIELDS)).map Prod.fst).Nodup :=
      ((List.filter_sublist conn).map Prod.fst).nodup hc
    simp only [mergeConnection]
    by_cases hemp : overrides.isEmpty
    · have hoe : overrides = [] := by
        cases overrides with
        | nil => rfl
        | cons a tl => simp [List.isEmpty] at hemp
      subst hoe
      rw [if_pos hemp, lookup_merge_core _ k hk3]
      cases hcf : List.lookup k
          (conn.filter fun kv => decide (kv.1 ∈ CONNECTION_FIELDS)) with
      | some v =>
        rw [lookup_dUpdate_of_some hconnF hcf]
        rfl
      | none =>
        rw [lookup_dUpdate_of_none hcf]
        rfl
    · rw [if_neg hemp, lookup_merge_core _ k hk3]
      cases hov : List.lookup k overrides with
      | some v => rw [lookup_dUpdate_of_some ho hov]
      | none =>
        rw [lookup_dUpdate_of_none hov]
        cases hcf : List.lookup k
            (conn.filter fun kv => decide (kv.1 ∈ CONNECTION_FIELDS)) with
        | some v => rw [lookup_dUpdate_of_some hconnF hcf]
        | none => rw [lookup_dUpdate_of_none hcf]

/-- C9 witness: the amended statement evaluated on a concrete preset — the
preset `default` supplies `server_ip`, the preset `connection` supplies
`client_ip`, the caller override supplies `use_multicast`, and a junk
preset-default key is filtered away. -/
theorem c9_amended_witness :
    List.lookup "use_multicast"
        (mergeConnection [("server_ip", .jstr "10.0.0.1"), ("junk", .jnull)]
          [("client_ip", .jstr "10.0.0.2")] [("use_multicast", .jbool false)]) =
      some (.jbool false) ∧
    List.lookup "server_ip"
        (mergeConnection [("server_ip", .jstr "10.0.0.1"), ("junk", .jnull)]
          [("client_ip", .jstr "10.0.0.2")] [("use_multicast", .jbool false)]) =
      some (.jstr "10.0.0.1") ∧
    ∀ k' ∈ (mergeConnection [("server_ip", .jstr "10.0.0.1"), ("junk", .jnull)]
        [("client_ip", .jstr "10.0.0.2")] [("use_multicast", .jbool false)]).map Prod.fst,
      k' ∈ CONNECTION_FIELDS ∨ k' ∈ ["use_multicast"] := by
  refine ⟨?_, ?_, ?_⟩
  · exact ((c9_amended _ _ _ (by decide) (by decide)).2 "use_multicast"
      (by decide)).trans rfl
  · exact ((c9_amended _ _ _ (by decide) (by decide)).2 "server_ip"
      (by decide)).trans rfl
  · intro k' hk'
    exact (c9_amended _ _ _ (by decide) (by decide)).1 k' hk'

/- ## Order lemmas for sorting -/

theorem strLeData_refl (l : List Char) : strLeData l l = true := by
  induction l with
  | nil => rfl
  | cons a tl ih => simp [strLeData, ih]

theorem strLeData_total (x : List Char) : ∀ y, strLeData x y = true ∨ strLeData y x = true := by
  induction x with
  | nil => intro y; left; rfl
  | cons a as ih =>
    intro y
    cases y with
    | nil => right; rfl
    | cons b bs =>
      rcases Nat.lt_trichotomy a.toNat b.toNat with h | h | h
      · left
        simp [strLeData, h]
      · have h1 : ¬ a.toNat < b.toNat := by omega
        have h2 : ¬ b.toNat < a.toNat := by omega
        rcases ih bs with hab | hba
        · left
          simp [strLeData, h1, h2, hab]
        · right
          simp [strLeData, h1, h2, hba]
      · right
        simp [strLeData, h]

theorem strLeData_trans : ∀ (x y z : List Char), strLeData x y = true →
    strLeData y z = true → strLeData x z = true := by
  intro x
  induction x with
  | nil => intro y z _ _; rfl
  | cons a as ih =>
    intro y z h1 h2
    cases y with
    | nil => simp [strLeData] at h1
    | cons b bs =>
      cases z with
      | nil => simp [strLeData] at h2
      | cons c cs =>
        simp only [strLeData] at h1 h2 ⊢
        rcases Nat.lt_trichotomy a.toNat b.toNat with hab | hab | hab
        · rcases Nat.lt_trichotomy b.toNat c.toNat with hbc | hbc | hbc
          · simp [show a.toNat < c.toNat by omega]
          · simp [show a.toNat < c.toNat by omega]
          · rw [if_neg (by omega), if_pos hbc] at h2
            cases h2
        · rcases Nat.lt_trichotomy b.toNat c.toNat with hbc | hbc | hbc
          · simp [show a.toNat < c.toNat by omega]
          · have hxy : strLeData as bs = true := by
              rwa [if_neg (by omega), if_neg (by omega)] at h1
            have hyz : strLeData bs cs = true := by
              rwa [if_neg (by omega), if_neg (by omega)] at h2
            rw [if_neg (by omega), if_neg (by omega)]
            exact ih bs cs hxy hyz
          · rw [if_neg (by omega), if_pos hbc] at h2
            cases h2
        · rw [if_neg (by omega), if_pos hab] at h1
          cases h1

theorem strLe_total (a b : String) : strLe a b = true ∨ strLe b a = true :=
  strLeData_total a.data b.data

theorem strLe_trans {a b c : String} (h1 : strLe a b = true) (h2 : strLe b c = true) :
    strLe a c = true :=
  strLeData_trans a.data b.data c.data h1 h2

theorem lexLe_refl (a : Instant) : Instant.lexLe a a := by
  unfold Instant.lexLe
  omega

theorem lexLe_total (a b : Instant) : Instant.lexLe a b ∨ Instant.lexLe b a := by
  unfold Instant.lexLe
  omega

theorem lexLe_trans {a b c : Instant} (h1 : Instant.lexLe a b) (h2 : Instant.lexLe b c) :
    Instant.lexLe a c := by
  unfold Instant.lexLe at h1 h2 ⊢
  omega

theorem sorted_rel_getLast {α : Type} {r : α → α → Prop} (hrefl : ∀ a, r a a) :
    ∀ (l : List α), l.Sorted r → ∀ x ∈ l, ∀ (hne : l ≠ []), r x (l.getLast hne) := by
  intro l
  induction l with
  | nil => intro _ x hx; cases hx
  | cons a tl ih =>
    intro hs x hx hne
    cases tl with
    | nil =>
      have hxa : x = a := by simpa using hx
      subst hxa
      exact hrefl x
    | cons b tl2 =>
      have hlast : (a :: b :: tl2).getLast hne = (b :: tl2).getLast (by simp) :=
        List.getLast_cons _
      rw [hlast]
      rcases List.mem_cons.mp hx with hxa | hxtl
      · subst hxa
        exact (List.sorted_cons.mp hs).1 _ (List.getLast_mem _)
      · exact ih (List.sorted_cons.mp hs).2 x hxtl (by simp)

theorem getLast?_eq_none_iff {α : Type} {l : List α} : l.getLast? = none ↔ l = [] := by
  cases l <;> simp [List.getLast?]

/- ## C7: listing -/

/-- C7: `list_calibs` (and its alias `list_snapshots`) returns exactly the
regular immediate children of the root whose name starts with the room
prefix, ends with `.json`, and does not contain `"latest"` — as a
permutation stating the multiset equality — sorted ascending in the
code-point lexicographic order Python sorts strings by; a missing root
yields the empty list, not an error. -/
theorem c7_list_calibs (fs : CalibFS) (room : Option String) :
    (fs.rootEntries = none → list_calibs fs room = []) ∧
    (list_calibs fs room).Perm
      ((fs.children.filter (calibEntryOk room)).map (·.name)) ∧
    (list_calibs fs room).Sorted (fun a b => strLe a b = true) := by
  refine ⟨?_, ?_, ?_⟩
  · intro h
    simp [list_calibs, h]
  · cases hre : fs.rootEntries with
    | none => simp [list_calibs, hre, CalibFS.children]
    | some es =>
      have hch : fs.children = es := by simp [CalibFS.children, hre]
      simp only [list_calibs, hre, hch]
      exact List.perm_insertionSort _ _
  · cases hre : fs.rootEntries with
    | none => simp [list_calibs, hre]
    | some es =>
      simp only [list_calibs, hre]
      haveI : IsTotal String (fun a b => strLe a b = true) := ⟨strLe_total⟩
      haveI : IsTrans String (fun a b => strLe a b = true) :=
        ⟨fun _ _ _ => strLe_trans⟩
      exact List.sorted_insertionSort _ _

/-- C7 witness: the listing on a missing root and on a concrete root holding
decodable snapshots, an undecodable `.json` name, a `latest` pointer and an
unrelated file. -/
theorem c7_list_calibs_witness :
    list_calibs ⟨none, []⟩ (some "cork") = [] ∧
    (list_calibs exampleFS (some "cork")).Perm
      ((exampleFS.children.filter (calibEntryOk (some "cork"))).map (·.name)) ∧
    (list_calibs exampleFS (some "cork")).Sorted (fun a b => strLe a b = true) :=
  ⟨(c7_list_calibs ⟨none, []⟩ (some "cork")).1 rfl,
    (c7_list_calibs exampleFS (some "cork")).2.1,
    (c7_list_calibs exampleFS (some "cork")).2.2⟩

/- ## C8: latest lookup -/

/-- C8: the latest lookup returns the last element of the listing when the
listing is non-empty; otherwise it checks `<root>/latest/<room>_calib.json`
(or `<root>/latest/calib.json` for the default room) and then
`<root>/<room>_latest.json` (or `<root>/calib_latest.json`), in that order,
returning the first location that exists, and `none` when none exists. -/
theorem c8_latest_lookup (fs : CalibFS) (room : Option String) :
    (∀ p, (list_calibs fs room).getLast? = some p →
      latestJsonPath fs room = some (.entry p)) ∧
    (list_calibs fs room = [] →
      (fs.existsInLatestDir (legacyPointerName room) = true →
        latestJsonPath fs room = some (.legacyLatestDir (legacyPointerName room))) ∧
      (fs.existsInLatestDir (legacyPointerName room) = false →
        fs.existsInRoot (latestFilename room) = true →
        latestJsonPath fs room = some (.legacyRoot (latestFilename room))) ∧
      (fs.existsInLatestDir (legacyPointerName room) = false →
        fs.existsInRoot (latestFilename room) = false →
        latestJsonPath fs room = none)) ∧
    (∀ r, r ≠ "" → legacyPointerName (some r) = r ++ "_calib.json" ∧
      latestFilename (some r) = r ++ "_latest.json") ∧
    legacyPointerName none = "calib.json" ∧ latestFilename none = "calib_latest.json" ∧
    legacyPointerName (some "") = "calib.json" ∧
    latestFilename (some "") = "calib_latest.json" := by
  refine ⟨?_, ?_, ?_, rfl, rfl, rfl, rfl⟩
  · intro p hp
    unfold latestJsonPath
    rw [hp]
  · intro hnil
    have hl : (list_calibs fs room).getLast? = none := by
      rw [hnil]
      rfl
    refine ⟨?_, ?_, ?_⟩
    · intro h1
      unfold latestJsonPath
      rw [hl, if_pos h1]
    · intro h1 h2
      unfold latestJsonPath
      rw [hl, if_neg (by simp [h1]), if_pos h2]
    · intro h1 h2
      unfold latestJsonPath
      rw [hl, if_neg (by simp [h1]), if_neg (by simp [h2])]
  · intro r hr
    constructor <;> simp [legacyPointerName, latestFilename, hr]

/-- C8 witness: a populated root resolves to the last (newest) listing
element; a root holding only a legacy pointer in `<root>/latest/` resolves
to that pointer. -/
theorem c8_latest_lookup_witness :
    latestJsonPath exampleFS (some "cork") = some (.entry "cork_notadate.json") ∧
    latestJsonPath legacyOnlyFS (some "cork") =
      some (.legacyLatestDir "cork_calib.json") := by
  constructor
  · exact (c8_latest_lookup exampleFS (some "cork")).1 "cork_notadate.json" rfl
  · exact ((c8_latest_lookup legacyOnlyFS (some "cork")).2.1 rfl).1 rfl

/- ## C3: at-or-before query -/

end OptiCalib
